import Mathlib

/-!
Shallow embedding of `statscan_wrapper/statscan.py`, a small wrapper that
fetches Statistics Canada data tables, caches them on disk, extracts the
CSV member from the downloaded zip archive, and parses it into a data frame.

The filesystem is modelled as state (a map from paths to file data plus a
set of directories), the network as a function from URLs to HTTP responses,
and a zip archive as its ordered list of members.  Each Lean definition
mirrors the corresponding Python function; external library behaviour
(`requests`, `zipfile`, `polars`) is modelled abstractly where noted.
-/

namespace StatscanWrapper

/-- A filesystem path, as a list of components. -/
abbrev Path := List String

/-- A member of a zip archive: its name and its (text) content. -/
structure ZipMember where
  name : String
  content : String
deriving DecidableEq

/-- Data stored in a file: either text or a zip archive blob. -/
inductive FileData where
  | text (s : String)
  | zip (members : List ZipMember)
deriving DecidableEq

/-- The filesystem state: a partial map from paths to file data and a set
of existing directories. -/
structure FS where
  files : Path → Option FileData
  dirs : Path → Bool

/-- The empty filesystem. -/
def emptyFS : FS := { files := fun _ => none, dirs := fun _ => false }

/-- Write (create or overwrite) a file. Models `open(p,'wb')` / extraction. -/
def FS.write (fs : FS) (p : Path) (d : FileData) : FS :=
  { fs with files := fun q => if q = p then some d else fs.files q }

/-- Delete a file. Models `Path.unlink`. -/
def FS.erase (fs : FS) (p : Path) : FS :=
  { fs with files := fun q => if q = p then none else fs.files q }

/-- Move a file. Models `Path.rename` (the call sites below only rename
files that exist, so the missing-source case never fires). -/
def FS.rename (fs : FS) (src dst : Path) : FS :=
  match fs.files src with
  | some d => (fs.erase src).write dst d
  | none => fs

/-- Create a directory and all its parents.
Models `Path.mkdir(parents=True, exist_ok=True)`. -/
def FS.mkdirp (fs : FS) (p : Path) : FS :=
  { fs with dirs := fun q => q.isPrefixOf p || fs.dirs q }

/-- File-existence check. Models `Path.exists()` at the call sites below,
which only ever apply it to regular files. -/
def FS.existsFile (fs : FS) (p : Path) : Bool :=
  (fs.files p).isSome

/-- Model of `Path.home()`: an abstract home directory. -/
def homePath : Path := ["~"]

/-- The cache root chosen by `get_cache_dir`:
`Path(custom_cache_dir) if custom_cache_dir else Path.home() / ".statscan_cache"`. -/
def cacheRoot (custom_cache_dir : Option String) : Path :=
  match custom_cache_dir with
  | some d => [d]
  | none => homePath ++ [".statscan_cache"]

/-- `get_cache_dir`: get or create the cache directory. -/
def get_cache_dir (custom_cache_dir : Option String) (fs : FS) : Path × FS :=
  let cache_dir := cacheRoot custom_cache_dir
  (cache_dir, fs.mkdirp cache_dir)

/-- Removing every occurrence of a character; models Python
`str.replace(c, "")` for a single-character pattern. -/
def removeAll (c : Char) (s : String) : String :=
  ⟨s.data.filter (fun a => a ≠ c)⟩

/-- The normalized table id used by `get_table_url`:
`table_id.replace("-", "").replace(" ", "")`. -/
def cleanId (table_id : String) : String :=
  removeAll ' ' (removeAll '-' table_id)

/-- The fixed base URL in `get_table_url`. -/
def base_url : String := "https://www150.statcan.gc.ca/n1/tbl/csv/"

/-- `get_table_url`: convert table ID to download URL. -/
def get_table_url (table_id : String) (language : String) : String :=
  base_url ++ cleanId table_id ++ "-" ++ language ++ ".zip"

/-- The zip download path `cache_path / f"{table_id}-{language}.zip"`. -/
def zipPath (cache_dir : Option String) (table_id language : String) : Path :=
  cacheRoot cache_dir ++ [table_id ++ "-" ++ language ++ ".zip"]

/-- The per-table directory `cache_path / f"{table_id}-{language}"`. -/
def tableDir (cache_dir : Option String) (table_id language : String) : Path :=
  cacheRoot cache_dir ++ [table_id ++ "-" ++ language]

/-- The canonical CSV path `table_dir / f"{table_id}-{language}.csv"`. -/
def csvPath (cache_dir : Option String) (table_id language : String) : Path :=
  tableDir cache_dir table_id language ++ [table_id ++ "-" ++ language ++ ".csv"]

/-- An HTTP response: status code and (zip archive) body.
Models the `requests.get` result abstractly. -/
structure HttpResponse where
  status : Nat
  body : List ZipMember

/-- The failures `download_table` can raise. -/
inductive DlError where
  | httpError (status : Nat) (url : String)
  | noCsv (table_id : String)
deriving DecidableEq

/-- `str(e)` for each failure.  The `httpError` text models the message of
`requests.exceptions.HTTPError` raised by `raise_for_status`; the `noCsv`
text is the literal `ValueError` message in `download_table`. -/
def DlError.message : DlError → String
  | .httpError status url => Nat.repr status ++ " Error for url: " ++ url
  | .noCsv table_id => "No CSV file found in the zip file for table " ++ table_id

/-- Lower-casing a string; models Python `str.lower()`. -/
def str_lower (s : String) : String :=
  ⟨s.data.map Char.toLower⟩

/-- Suffix test on strings; models Python `str.endswith`. -/
def str_endsWith (s suffix : String) : Bool :=
  suffix.data.isSuffixOf s.data

/-- The member-scan loop of `download_table`: the first filename in the
archive's member list whose lower-cased name ends in `.csv`. -/
def find_csv_filename : List ZipMember → Option String
  | [] => none
  | m :: rest =>
    if str_endsWith (str_lower m.name) ".csv" then some m.name
    else find_csv_filename rest

/-- `zip_ref.extractall(table_dir)`: write every member of the archive,
in order, under the table directory. -/
def extractAll (dir : Path) (members : List ZipMember) (fs : FS) : FS :=
  members.foldl (fun acc m => acc.write (dir ++ [m.name]) (.text m.content)) fs

/-- `download_table`: download and extract table data.  Returns the result
(canonical CSV path or failure), the new filesystem, and the number of
network requests issued. -/
def download_table (net : String → HttpResponse) (table_id : String)
    (cache_dir : Option String) (language : String) (fs : FS) :
    Except DlError Path × FS × Nat :=
  let fs1 := (get_cache_dir cache_dir fs).2
  if fs1.existsFile (csvPath cache_dir table_id language) then
    (.ok (csvPath cache_dir table_id language), fs1, 0)
  else
    let fs2 := fs1.mkdirp (tableDir cache_dir table_id language)
    let response := net (get_table_url table_id language)
    if 400 ≤ response.status then
      (.error (.httpError response.status (get_table_url table_id language)), fs2, 1)
    else
      let fs3 := fs2.write (zipPath cache_dir table_id language) (.zip response.body)
      let fs4 := extractAll (tableDir cache_dir table_id language) response.body fs3
      match find_csv_filename response.body with
      | none => (.error (.noCsv table_id), fs4, 1)
      | some csv_filename =>
        let extracted_path := tableDir cache_dir table_id language ++ [csv_filename]
        let fs5 := if extracted_path ≠ csvPath cache_dir table_id language then
            fs4.rename extracted_path (csvPath cache_dir table_id language)
          else fs4
        let fs6 := fs5.erase (zipPath cache_dir table_id language)
        (.ok (csvPath cache_dir table_id language), fs6, 1)

/-- An in-memory table: named ordered columns and ordered rows.
Models the `polars.DataFrame` produced by `get_table`. -/
structure DataFrame where
  columns : List String
  rows : List (List String)
deriving DecidableEq

/-- Splitting a character list at every occurrence of a separator. -/
def splitOnChar (sep : Char) : List Char → List (List Char)
  | [] => [[]]
  | c :: cs =>
    let r := splitOnChar sep cs
    if c = sep then [] :: r
    else
      match r with
      | [] => [[c]]
      | h :: t => (c :: h) :: t

/-- Modelled from the behaviour of the external `polars.read_csv`: split the
text into lines, take the first non-empty line as the header, split every
line at the separator, and fail when a row's field count differs from the
header's. -/
def parse_csv (separator : Char) (content : String) : Except String DataFrame :=
  let lines := (splitOnChar '\n' content.data).filter (fun l => l ≠ [])
  match lines with
  | [] => .error "empty CSV"
  | header :: rest =>
    let columns := (splitOnChar separator header).map String.mk
    let parsed := rest.map (fun r => (splitOnChar separator r).map String.mk)
    if parsed.all (fun r => r.length = columns.length) then
      .ok { columns := columns, rows := parsed }
    else
      .error "CSV parse error: found row with unexpected number of fields"

/-- Modelled from the behaviour of the external `polars.read_csv` applied to
a path: read the file at the path and parse it; fail when the file is
missing or is not text. -/
def pl_read_csv (fs : FS) (p : Path) (separator : Char) : Except String DataFrame :=
  match fs.files p with
  | some (.text content) => parse_csv separator content
  | _ => .error "could not read file"

/-- The delimiter chosen in `get_table`:
`";" if language == "fra" else ","`. -/
def delimiter (language : String) : Char :=
  if language = "fra" then ';' else ','

/-- `get_table`: fetch a StatsCan table and return it as a data frame.
Every failure is collapsed into a single wrapped message string, so the
original failure kind is not preserved in the result type. -/
def get_table (net : String → HttpResponse) (table_id : String)
    (cache_dir : Option String) (language : String) (fs : FS) :
    Except String DataFrame × FS × Nat :=
  match download_table net table_id cache_dir language fs with
  | (.error e, fs1, n) =>
    (.error ("Error fetching table " ++ table_id ++ ": " ++ e.message), fs1, n)
  | (.ok csv_path, fs1, n) =>
    match pl_read_csv fs1 csv_path (delimiter language) with
    | .ok df => (.ok df, fs1, n)
    | .error msg =>
      (.error ("Error fetching table " ++ table_id ++ ": " ++ msg), fs1, n)

/-- `sub` occurs as a contiguous substring of `s`. -/
def containsSubstr (s sub : String) : Prop :=
  ∃ pre post, s.data = pre ++ sub.data ++ post

/-- Sample single-member archive body used by concrete witnesses. -/
def sampleMembers : List ZipMember :=
  [⟨"14100287.csv", "REF_DATE,GEO,VALUE\n2020-01,Canada,100\n2020-02,Canada,101\n"⟩]

/-- Network stub that always serves `sampleMembers` with status 200. -/
def net200 : String → HttpResponse := fun _ => ⟨200, sampleMembers⟩

/-- Network stub that always answers 404. -/
def net404 : String → HttpResponse := fun _ => ⟨404, []⟩

/-- Network stub serving an archive that contains no CSV member. -/
def netNoCsv : String → HttpResponse := fun _ => ⟨200, [⟨"readme.txt", "hello"⟩]⟩

/-- Network stub serving an archive with a CSV member and an extra member. -/
def netTwo : String → HttpResponse := fun _ => ⟨200, [⟨"a.csv", "x"⟩, ⟨"b.txt", "y"⟩]⟩

/-- Filesystem that already holds a cached semicolon-separated French file. -/
def frenchFS : FS :=
  emptyFS.write (csvPath (some "c") "T" "fra") (.text "COL1;COL2\n1;2\n")

/-- Filesystem with a file cached under the hyphenated spelling only. -/
def cachedFS14 : FS :=
  emptyFS.write (csvPath (some "c") "14-10-0287" "eng") (.text "data")

/-! ### Basic filesystem lemmas -/

theorem FS.mkdirp_files (fs : FS) (p q : Path) : (fs.mkdirp p).files q = fs.files q := rfl

theorem FS.write_dirs (fs : FS) (p : Path) (d : FileData) (q : Path) :
    (fs.write p d).dirs q = fs.dirs q := rfl

theorem FS.erase_dirs (fs : FS) (p q : Path) : (fs.erase p).dirs q = fs.dirs q := rfl

theorem FS.rename_dirs (fs : FS) (src dst q : Path) :
    (fs.rename src dst).dirs q = fs.dirs q := by
  unfold FS.rename
  split <;> rfl

theorem FS.write_files_self (fs : FS) (p : Path) (d : FileData) :
    (fs.write p d).files p = some d := by
  simp [FS.write]

theorem FS.write_files_ne (fs : FS) (p : Path) (d : FileData) (q : Path) (h : q ≠ p) :
    (fs.write p d).files q = fs.files q := by
  simp [FS.write, h]

theorem FS.erase_files_self (fs : FS) (p : Path) : (fs.erase p).files p = none := by
  simp [FS.erase]

theorem FS.erase_files_ne (fs : FS) (p q : Path) (h : q ≠ p) :
    (fs.erase p).files q = fs.files q := by
  simp [FS.erase, h]

theorem get_cache_dir_fst (cd : Option String) (fs : FS) :
    (get_cache_dir cd fs).1 = cacheRoot cd := rfl

theorem get_cache_dir_files (cd : Option String) (fs : FS) (p : Path) :
    ((get_cache_dir cd fs).2).files p = fs.files p := rfl

theorem existsFile_gcd (cd : Option String) (fs : FS) (p : Path) :
    ((get_cache_dir cd fs).2).existsFile p = fs.existsFile p := rfl

theorem isPrefixOf_self (l : Path) : l.isPrefixOf l = true := by
  induction l with
  | nil => rfl
  | cons a t ih => simp [List.isPrefixOf, ih]

/-! ### Path disequality lemmas -/

theorem append_pair_ne_append_one (l : Path) (a b c : String) :
    l ++ [a, b] ≠ l ++ [c] := by
  intro h
  have h2 := List.append_cancel_left h
  simp at h2

theorem zipPath_ne_csvPath (cd : Option String) (table_id language : String) :
    zipPath cd table_id language ≠ csvPath cd table_id language := by
  unfold zipPath csvPath tableDir
  rw [List.append_assoc]
  intro h
  exact append_pair_ne_append_one _ _ _ _ h.symm

theorem extracted_ne_zipPath (cd : Option String) (table_id language nm : String) :
    tableDir cd table_id language ++ [nm] ≠ zipPath cd table_id language := by
  unfold tableDir zipPath
  rw [List.append_assoc]
  exact append_pair_ne_append_one _ _ _ _

/-! ### String lemmas -/

theorem data_append (a b : String) : (a ++ b).data = a.data ++ b.data := by
  cases a
  cases b
  rfl

theorem string_append_right_cancel (a b s : String) (h : a ++ s = b ++ s) : a = b := by
  have hd : a.data ++ s.data = b.data ++ s.data := by
    have h2 := congrArg String.data h
    simpa [data_append] using h2
  exact String.ext (List.append_cancel_right hd)

theorem joined_id_inj (id1 id2 language : String)
    (h : id1 ++ "-" ++ language = id2 ++ "-" ++ language) : id1 = id2 :=
  string_append_right_cancel _ _ _ (string_append_right_cancel _ _ _ h)

theorem tableDir_inj (cd : Option String) (id1 id2 language : String)
    (h : tableDir cd id1 language = tableDir cd id2 language) : id1 = id2 := by
  unfold tableDir at h
  have h2 := List.append_cancel_left h
  simp only [List.cons.injEq, and_true] at h2
  exact joined_id_inj _ _ _ h2

theorem csvPath_inj (cd : Option String) (id1 id2 language : String)
    (h : csvPath cd id1 language = csvPath cd id2 language) : id1 = id2 := by
  unfold csvPath tableDir at h
  rw [List.append_assoc, List.append_assoc] at h
  have h2 := List.append_cancel_left h
  simp only [List.singleton_append, List.cons.injEq] at h2
  exact joined_id_inj _ _ _ h2.1

theorem containsSubstr_of_eq_append (s pre sub post : String)
    (h : s = (pre ++ sub) ++ post) : containsSubstr s sub := by
  refine ⟨pre.data, post.data, ?_⟩
  subst h
  simp [data_append, List.append_assoc]

/-! ### Extraction and member-scan lemmas -/

theorem extractAll_nil (dir : Path) (fs : FS) : extractAll dir [] fs = fs := rfl

theorem extractAll_cons (dir : Path) (a : ZipMember) (rest : List ZipMember) (fs : FS) :
    extractAll dir (a :: rest) fs =
      extractAll dir rest (fs.write (dir ++ [a.name]) (.text a.content)) := rfl

theorem extractAll_dirs (dir : Path) (members : List ZipMember) (fs : FS) (q : Path) :
    (extractAll dir members fs).dirs q = fs.dirs q := by
  induction members generalizing fs with
  | nil => rfl
  | cons a rest ih =>
    rw [extractAll_cons, ih, FS.write_dirs]

theorem extractAll_files_notin (dir : Path) (members : List ZipMember) (fs : FS) (k : Path)
    (h : ∀ m ∈ members, dir ++ [m.name] ≠ k) :
    (extractAll dir members fs).files k = fs.files k := by
  induction members generalizing fs with
  | nil => rfl
  | cons a rest ih =>
    rw [extractAll_cons, ih _ fun x hx => h x (List.mem_cons_of_mem _ hx)]
    exact FS.write_files_ne _ _ _ _ fun he => h a (List.mem_cons_self _ _) he.symm

theorem extractAll_isSome_mono (dir : Path) (members : List ZipMember) (fs : FS) (k : Path)
    (h : (fs.files k).isSome = true) :
    ((extractAll dir members fs).files k).isSome = true := by
  induction members generalizing fs with
  | nil => exact h
  | cons a rest ih =>
    rw [extractAll_cons]
    apply ih
    by_cases hk : k = dir ++ [a.name]
    · subst hk
      rw [FS.write_files_self]
      rfl
    · rw [FS.write_files_ne _ _ _ _ hk]
      exact h

theorem extractAll_isSome_mem (dir : Path) (members : List ZipMember) (fs : FS)
    (m : ZipMember) (hm : m ∈ members) :
    ((extractAll dir members fs).files (dir ++ [m.name])).isSome = true := by
  induction members generalizing fs with
  | nil => cases hm
  | cons a rest ih =>
    rw [extractAll_cons]
    rcases List.mem_cons.1 hm with h | h
    · subst h
      apply extractAll_isSome_mono
      rw [FS.write_files_self]
      rfl
    · exact ih _ h

theorem find_csv_filename_eq_find (members : List ZipMember) :
    find_csv_filename members =
      (members.find? (fun m => str_endsWith (str_lower m.name) ".csv")).map ZipMember.name := by
  induction members with
  | nil => rfl
  | cons m rest ih =>
    by_cases h : str_endsWith (str_lower m.name) ".csv" = true
    · simp [find_csv_filename, List.find?, h]
    · simp only [Bool.not_eq_true] at h
      simp [find_csv_filename, List.find?, h, ih]

theorem find_csv_filename_mem (members : List ZipMember) (nm : String)
    (h : find_csv_filename members = some nm) :
    ∃ m ∈ members, m.name = nm ∧ str_endsWith (str_lower m.name) ".csv" = true := by
  induction members with
  | nil => cases h
  | cons a rest ih =>
    by_cases hc : str_endsWith (str_lower a.name) ".csv" = true
    · refine ⟨a, List.mem_cons_self _ _, ?_, hc⟩
      have h2 : some a.name = some nm := by
        rw [← h]
        simp [find_csv_filename, hc]
      exact Option.some.inj h2
    · have h2 : find_csv_filename rest = some nm := by
        rw [← h]
        simp only [Bool.not_eq_true] at hc
        simp [find_csv_filename, hc]
      obtain ⟨x, hx, hxn, hxe⟩ := ih h2
      exact ⟨x, List.mem_cons_of_mem _ hx, hxn, hxe⟩

/-! ### Characterization of `download_table` -/

/-- The filesystem produced by a cache-miss run of `download_table` that
finds CSV member `nm` in archive body `body`. -/
def missFinalFS (cd : Option String) (table_id language : String) (fs : FS)
    (body : List ZipMember) (nm : String) : FS :=
  let fs4 := extractAll (tableDir cd table_id language) body
    ((((get_cache_dir cd fs).2).mkdirp (tableDir cd table_id language)).write
      (zipPath cd table_id language) (.zip body))
  let extracted := tableDir cd table_id language ++ [nm]
  (if extracted ≠ csvPath cd table_id language then
      fs4.rename extracted (csvPath cd table_id language)
    else fs4).erase (zipPath cd table_id language)

theorem download_table_hit (net : String → HttpResponse) (table_id : String)
    (cd : Option String) (language : String) (fs : FS)
    (h : fs.existsFile (csvPath cd table_id language) = true) :
    download_table net table_id cd language fs =
      (.ok (csvPath cd table_id language), (get_cache_dir cd fs).2, 0) := by
  simp [download_table, existsFile_gcd, h]

theorem download_table_miss (net : String → HttpResponse) (table_id : String)
    (cd : Option String) (language : String) (fs : FS)
    (h : fs.existsFile (csvPath cd table_id language) = false) :
    download_table net table_id cd language fs =
      (let fs2 := ((get_cache_dir cd fs).2).mkdirp (tableDir cd table_id language)
       let response := net (get_table_url table_id language)
       if 400 ≤ response.status then
         (.error (.httpError response.status (get_table_url table_id language)), fs2, 1)
       else
         let fs3 := fs2.write (zipPath cd table_id language) (.zip response.body)
         let fs4 := extractAll (tableDir cd table_id language) response.body fs3
         match find_csv_filename response.body with
         | none => (.error (.noCsv table_id), fs4, 1)
         | some csv_filename =>
           let extracted_path := tableDir cd table_id language ++ [csv_filename]
           let fs5 := if extracted_path ≠ csvPath cd table_id language then
               fs4.rename extracted_path (csvPath cd table_id language)
             else fs4
           (.ok (csvPath cd table_id language), fs5.erase (zipPath cd table_id language), 1)) := by
  simp [download_table, existsFile_gcd, h]

theorem download_table_http (net : String → HttpResponse) (table_id : String)
    (cd : Option String) (language : String) (fs : FS) (st : Nat) (body : List ZipMember)
    (hmiss : fs.existsFile (csvPath cd table_id language) = false)
    (hnet : net (get_table_url table_id language) = ⟨st, body⟩)
    (hst : 400 ≤ st) :
    download_table net table_id cd language fs =
      (.error (.httpError st (get_table_url table_id language)),
       ((get_cache_dir cd fs).2).mkdirp (tableDir cd table_id language), 1) := by
  rw [download_table_miss net table_id cd language fs hmiss]
  simp only [hnet]
  simp [hst]

theorem download_table_noCsv (net : String → HttpResponse) (table_id : String)
    (cd : Option String) (language : String) (fs : FS) (st : Nat) (body : List ZipMember)
    (hmiss : fs.existsFile (csvPath cd table_id language) = false)
    (hnet : net (get_table_url table_id language) = ⟨st, body⟩)
    (hst : st < 400)
    (hfind : find_csv_filename body = none) :
    download_table net table_id cd language fs =
      (.error (.noCsv table_id),
       extractAll (tableDir cd table_id language) body
         ((((get_cache_dir cd fs).2).mkdirp (tableDir cd table_id language)).write
           (zipPath cd table_id language) (.zip body)), 1) := by
  rw [download_table_miss net table_id cd language fs hmiss]
  simp only [hnet]
  rw [if_neg (by omega)]
  simp [hfind]

theorem download_table_found (net : String → HttpResponse) (table_id : String)
    (cd : Option String) (language : String) (fs : FS) (st : Nat) (body : List ZipMember)
    (nm : String)
    (hmiss : fs.existsFile (csvPath cd table_id language) = false)
    (hnet : net (get_table_url table_id language) = ⟨st, body⟩)
    (hst : st < 400)
    (hfind : find_csv_filename body = some nm) :
    download_table net table_id cd language fs =
      (.ok (csvPath cd table_id language), missFinalFS cd table_id language fs body nm, 1) := by
  rw [download_table_miss net table_id cd language fs hmiss]
  simp only [hnet]
  rw [if_neg (by omega)]
  simp [hfind, missFinalFS]

theorem download_table_netcalls (net : String → HttpResponse) (table_id : String)
    (cd : Option String) (language : String) (fs : FS) :
    (download_table net table_id cd language fs).2.2 ≤ 1 := by
  by_cases h : fs.existsFile (csvPath cd table_id language) = true
  · rw [download_table_hit net table_id cd language fs h]
    simp
  · rw [Bool.not_eq_true] at h
    rw [download_table_miss net table_id cd language fs h]
    rcases hr : net (get_table_url table_id language) with ⟨st, body⟩
    by_cases hs : 400 ≤ st
    · simp [hr, hs]
    · cases hf : find_csv_filename body <;> simp [hr, hs, hf]

theorem download_table_miss_netcalls (net : String → HttpResponse) (table_id : String)
    (cd : Option String) (language : String) (fs : FS)
    (hmiss : fs.existsFile (csvPath cd table_id language) = false) :
    (download_table net table_id cd language fs).2.2 = 1 := by
  rw [download_table_miss net table_id cd language fs hmiss]
  rcases hr : net (get_table_url table_id language) with ⟨st, body⟩
  by_cases hs : 400 ≤ st
  · simp [hr, hs]
  · cases hf : find_csv_filename body <;> simp [hr, hs, hf]

theorem missFinalFS_csv_isSome (cd : Option String) (table_id language : String) (fs : FS)
    (body : List ZipMember) (nm : String)
    (hfind : find_csv_filename body = some nm) :
    ((missFinalFS cd table_id language fs body nm).files
      (csvPath cd table_id language)).isSome = true := by
  obtain ⟨m, hmem, hname, _⟩ := find_csv_filename_mem body nm hfind
  unfold missFinalFS
  rw [FS.erase_files_ne _ _ _ (Ne.symm (zipPath_ne_csvPath cd table_id language))]
  by_cases he : tableDir cd table_id language ++ [nm] = csvPath cd table_id language
  · rw [if_neg (by simp [he])]
    rw [← he, ← hname]
    exact extractAll_isSome_mem _ _ _ _ hmem
  · rw [if_pos he]
    have hsrc : ((extractAll (tableDir cd table_id language) body
        ((((get_cache_dir cd fs).2).mkdirp (tableDir cd table_id language)).write
          (zipPath cd table_id language) (.zip body))).files
        (tableDir cd table_id language ++ [nm])).isSome = true := by
      rw [← hname]
      exact extractAll_isSome_mem _ _ _ _ hmem
    obtain ⟨d, hd⟩ := Option.isSome_iff_exists.1 hsrc
    unfold FS.rename
    rw [hd]
    rw [FS.write_files_self]
    rfl

theorem missFinalFS_zip_none (cd : Option String) (table_id language : String) (fs : FS)
    (body : List ZipMember) (nm : String) :
    (missFinalFS cd table_id language fs body nm).files (zipPath cd table_id language) = none := by
  unfold missFinalFS
  exact FS.erase_files_self _ _

theorem missFinalFS_dirs_tableDir (cd : Option String) (table_id language : String) (fs : FS)
    (body : List ZipMember) (nm : String) :
    (missFinalFS cd table_id language fs body nm).dirs (tableDir cd table_id language) = true := by
  unfold missFinalFS
  rw [FS.erase_dirs]
  by_cases he : tableDir cd table_id language ++ [nm] = csvPath cd table_id language
  · rw [if_neg (by simp [he])]
    rw [extractAll_dirs, FS.write_dirs]
    unfold FS.mkdirp
    simp [isPrefixOf_self]
  · rw [if_pos he, FS.rename_dirs]
    rw [extractAll_dirs, FS.write_dirs]
    unfold FS.mkdirp
    simp [isPrefixOf_self]

theorem download_table_ok (net : String → HttpResponse) (table_id : String)
    (cd : Option String) (language : String) (fs : FS) (p : Path) (fs1 : FS) (n : Nat)
    (h : download_table net table_id cd language fs = (.ok p, fs1, n)) :
    p = csvPath cd table_id language
    ∧ (fs1.files (csvPath cd table_id language)).isSome = true
    ∧ n ≤ 1 := by
  by_cases hc : fs.existsFile (csvPath cd table_id language) = true
  · rw [download_table_hit net table_id cd language fs hc] at h
    simp only [Prod.mk.injEq] at h
    obtain ⟨h1, h2, h3⟩ := h
    refine ⟨(Except.ok.inj h1).symm, ?_, by omega⟩
    rw [← h2, get_cache_dir_files]
    exact hc
  · rw [Bool.not_eq_true] at hc
    rcases hr : net (get_table_url table_id language) with ⟨st, body⟩
    by_cases hs : 400 ≤ st
    · rw [download_table_http net table_id cd language fs st body hc hr hs] at h
      simp only [Prod.mk.injEq] at h
      cases h.1
    · cases hf : find_csv_filename body with
      | none =>
        rw [download_table_noCsv net table_id cd language fs st body hc hr (by omega) hf] at h
        simp only [Prod.mk.injEq] at h
        cases h.1
      | some nm =>
        rw [download_table_found net table_id cd language fs st body nm hc hr (by omega) hf] at h
        simp only [Prod.mk.injEq] at h
        obtain ⟨h1, h2, h3⟩ := h
        refine ⟨(Except.ok.inj h1).symm, ?_, by omega⟩
        rw [← h2]
        exact missFinalFS_csv_isSome cd table_id language fs body nm hf

theorem download_table_ok_miss (net : String → HttpResponse) (table_id : String)
    (cd : Option String) (language : String) (fs : FS) (p : Path) (fs1 : FS) (n : Nat)
    (hmiss : fs.existsFile (csvPath cd table_id language) = false)
    (h : download_table net table_id cd language fs = (.ok p, fs1, n)) :
    ∃ nm, find_csv_filename (net (get_table_url table_id language)).body = some nm
      ∧ (net (get_table_url table_id language)).status < 400
      ∧ p = csvPath cd table_id language
      ∧ n = 1
      ∧ fs1 = missFinalFS cd table_id language fs
          (net (get_table_url table_id language)).body nm := by
  rcases hr : net (get_table_url table_id language) with ⟨st, body⟩
  by_cases hs : 400 ≤ st
  · rw [download_table_http net table_id cd language fs st body hmiss hr hs] at h
    simp only [Prod.mk.injEq] at h
    cases h.1
  · cases hf : find_csv_filename body with
    | none =>
      rw [download_table_noCsv net table_id cd language fs st body hmiss hr (by omega) hf] at h
      simp only [Prod.mk.injEq] at h
      cases h.1
    | some nm =>
      rw [download_table_found net table_id cd language fs st body nm hmiss hr (by omega) hf] at h
      simp only [Prod.mk.injEq] at h
      obtain ⟨h1, h2, h3⟩ := h
      exact ⟨nm, by simp [hr, hf], by simp [hr]; omega, (Except.ok.inj h1).symm, h3.symm,
        by simp [hr, ← h2]⟩

theorem get_cache_dir_idem (cd : Option String) (fs : FS) :
    get_cache_dir cd ((get_cache_dir cd fs).2) = get_cache_dir cd fs := by
  unfold get_cache_dir FS.mkdirp
  simp only [Prod.mk.injEq, true_and]
  cases fs with
  | mk files dirs =>
    simp only [FS.mk.injEq, true_and]
    funext q
    cases h : q.isPrefixOf (cacheRoot cd) <;> simp [h]

/-! ### Claims -/

/-- C2: `get_table_url` strips hyphens and spaces from the identifier
before composing the URL, so any two identifiers with the same stripped
form yield the same URL; the three example spellings of 21100033 all give
the URL ending in `21100033-eng.zip`, and in general the URL is
`<base>/<stripped id>-<language>.zip`. -/
theorem getTableUrl_strips_separators (id1 id2 table_id language : String)
    (h : cleanId id1 = cleanId id2) :
    get_table_url id1 language = get_table_url id2 language
  ∧ get_table_url table_id language = base_url ++ cleanId table_id ++ "-" ++ language ++ ".zip"
  ∧ get_table_url "21-10-0033" "eng" = "https://www150.statcan.gc.ca/n1/tbl/csv/21100033-eng.zip"
  ∧ get_table_url "21 10 0033" "eng" = "https://www150.statcan.gc.ca/n1/tbl/csv/21100033-eng.zip"
  ∧ get_table_url "21100033" "eng" = "https://www150.statcan.gc.ca/n1/tbl/csv/21100033-eng.zip" := by
  refine ⟨?_, rfl, by decide, by decide, by decide⟩
  unfold get_table_url
  rw [h]

/-- C2 witness: the concrete identifiers "21-10-0033" and "21 10 0033"
satisfy the hypothesis and produce the same URL. -/
theorem getTableUrl_strips_separators_witness :
    cleanId "21-10-0033" = cleanId "21 10 0033"
  ∧ get_table_url "21-10-0033" "eng" = get_table_url "21 10 0033" "eng" := by
  refine ⟨by decide, ?_⟩
  exact (getTableUrl_strips_separators "21-10-0033" "21 10 0033" "x" "eng" (by decide)).1

/-- C8: `get_cache_dir` always returns an existing directory: a custom path
gives that path, no argument gives the `.statscan_cache` subdirectory of the
home directory; the directory (with parents) is created as a side effect,
and the operation is idempotent. -/
theorem getCacheDir_spec (d : String) (custom : Option String) (fs : FS) :
    ((get_cache_dir custom fs).2).dirs ((get_cache_dir custom fs).1) = true
  ∧ (get_cache_dir (some d) fs).1 = [d]
  ∧ (get_cache_dir none fs).1 = homePath ++ [".statscan_cache"]
  ∧ get_cache_dir custom ((get_cache_dir custom fs).2) = get_cache_dir custom fs := by
  refine ⟨?_, rfl, rfl, get_cache_dir_idem custom fs⟩
  unfold get_cache_dir FS.mkdirp
  simp [isPrefixOf_self]

/-- C8 witness: concrete custom directory on the empty filesystem. -/
theorem getCacheDir_spec_witness :
    ((get_cache_dir (some "cache") emptyFS).2).dirs ["cache"] = true
  ∧ get_cache_dir (some "cache") ((get_cache_dir (some "cache") emptyFS).2) =
      get_cache_dir (some "cache") emptyFS := by
  have h := getCacheDir_spec "cache" (some "cache") emptyFS
  exact ⟨h.2.1 ▸ h.1, h.2.2.2⟩

/-- C4: on a cache miss with a successful download, `download_table` scans
the archive's member list in order and selects the first member whose
lower-cased name ends in `.csv`; if none matches it fails with the
`No CSV file found` error naming the table, rather than returning a path. -/
theorem downloadTable_noCsv_error (net : String → HttpResponse) (table_id : String)
    (cd : Option String) (language : String) (fs : FS) (st : Nat)
    (body ms : List ZipMember)
    (hmiss : fs.existsFile (csvPath cd table_id language) = false)
    (hnet : net (get_table_url table_id language) = ⟨st, body⟩)
    (hst : st < 400)
    (hnone : find_csv_filename body = none) :
    (download_table net table_id cd language fs).1 = .error (.noCsv table_id)
  ∧ DlError.message (.noCsv table_id) =
      "No CSV file found in the zip file for table " ++ table_id
  ∧ find_csv_filename ms =
      (ms.find? (fun m => str_endsWith (str_lower m.name) ".csv")).map ZipMember.name := by
  refine ⟨?_, rfl, find_csv_filename_eq_find ms⟩
  rw [download_table_noCsv net table_id cd language fs st body hmiss hnet hst hnone]

/-- C4 witness: a concrete archive with only a `readme.txt` member. -/
theorem downloadTable_noCsv_error_witness :
    (download_table netNoCsv "14-10-0287" (some "cache") "eng" emptyFS).1 =
      .error (.noCsv "14-10-0287")
  ∧ find_csv_filename [⟨"readme.txt", "hello"⟩, ⟨"Data.CSV", "x"⟩] = some "Data.CSV" := by
  constructor
  · exact (downloadTable_noCsv_error netNoCsv "14-10-0287" (some "cache") "eng" emptyFS
      200 [⟨"readme.txt", "hello"⟩] [] rfl rfl (by omega) rfl).1
  · decide

/-- C5: on a cache miss whose archive holds a text member, `download_table`
returns the canonical cache path, the file at that path holds the member's
content (renaming the extracted member when its path differs from the
canonical one), and the temporary zip file no longer exists afterwards. -/
theorem downloadTable_extracts_member (net : String → HttpResponse) (table_id : String)
    (cd : Option String) (language : String) (fs : FS) (nm c : String) (st : Nat)
    (hmiss : fs.existsFile (csvPath cd table_id language) = false)
    (hnet : net (get_table_url table_id language) = ⟨st, [⟨nm, c⟩]⟩)
    (hst : st < 400)
    (hcsv : str_endsWith (str_lower nm) ".csv" = true) :
    (download_table net table_id cd language fs).1 = .ok (csvPath cd table_id language)
  ∧ ((download_table net table_id cd language fs).2.1).files (csvPath cd table_id language) =
      some (.text c)
  ∧ ((download_table net table_id cd language fs).2.1).files (zipPath cd table_id language) =
      none := by
  have hfind : find_csv_filename [⟨nm, c⟩] = some nm := by
    simp [find_csv_filename, hcsv]
  rw [download_table_found net table_id cd language fs st [⟨nm, c⟩] nm hmiss hnet hst hfind]
  refine ⟨rfl, ?_, missFinalFS_zip_none cd table_id language fs [⟨nm, c⟩] nm⟩
  unfold missFinalFS
  rw [FS.erase_files_ne _ _ _ (Ne.symm (zipPath_ne_csvPath cd table_id language))]
  rw [extractAll_cons, extractAll_nil]
  by_cases he : tableDir cd table_id language ++ [nm] = csvPath cd table_id language
  · rw [if_neg (by simp [he])]
    rw [← he]
    exact FS.write_files_self _ _ _
  · rw [if_pos he]
    unfold FS.rename
    rw [FS.write_files_self]
    rw [FS.write_files_self]

/-- C5 witness: concrete single-member archive on the empty filesystem. -/
theorem downloadTable_extracts_member_witness :
    (download_table net200 "14-10-0287" (some "cache") "eng" emptyFS).1 =
      .ok (csvPath (some "cache") "14-10-0287" "eng")
  ∧ ((download_table net200 "14-10-0287" (some "cache") "eng" emptyFS).2.1).files
      (csvPath (some "cache") "14-10-0287" "eng") =
      some (.text "REF_DATE,GEO,VALUE\n2020-01,Canada,100\n2020-02,Canada,101\n")
  ∧ ((download_table net200 "14-10-0287" (some "cache") "eng" emptyFS).2.1).files
      (zipPath (some "cache") "14-10-0287" "eng") = none :=
  downloadTable_extracts_member net200 "14-10-0287" (some "cache") "eng" emptyFS
    "14100287.csv" "REF_DATE,GEO,VALUE\n2020-01,Canada,100\n2020-02,Canada,101\n" 200
    rfl rfl (by omega) (by decide)

/-- C6: `get_table` parses with the semicolon separator exactly when the
language is "fra" and with the comma otherwise; on a successful fetch whose
file holds text `c`, the result is the parse of `c` under that separator
(errors wrapped); a semicolon-separated file parses into its two columns
under ';' and collapses into one column (a misparse) under ','. -/
theorem getTable_delimiter_choice (language table_id : String)
    (net : String → HttpResponse) (cd : Option String) (fs fs1 : FS)
    (p : Path) (n : Nat) (c : String)
    (h1 : download_table net table_id cd language fs = (.ok p, fs1, n))
    (h2 : fs1.files p = some (.text c)) :
    (delimiter language = ';' ↔ language = "fra")
  ∧ delimiter "eng" = ','
  ∧ (get_table net table_id cd language fs).1 =
      (parse_csv (delimiter language) c).mapError
        (fun msg => "Error fetching table " ++ table_id ++ ": " ++ msg)
  ∧ parse_csv ';' "COL1;COL2\n1;2\n" = .ok { columns := ["COL1", "COL2"], rows := [["1", "2"]] }
  ∧ parse_csv ',' "COL1;COL2\n1;2\n" = .ok { columns := ["COL1;COL2"], rows := [["1;2"]] } := by
  refine ⟨?_, rfl, ?_, rfl, rfl⟩
  · unfold delimiter
    by_cases h : language = "fra" <;> simp [h]
  · unfold get_table
    rw [h1]
    unfold pl_read_csv
    dsimp only
    rw [h2]
    cases hp : parse_csv (delimiter language) c <;> simp [hp, Except.mapError]

/-- C6 witness: a pre-seeded semicolon-separated French cache file parses
into two columns via `get_table` with language "fra". -/
theorem getTable_delimiter_choice_witness :
    (delimiter "fra" = ';' ↔ ("fra" : String) = "fra")
  ∧ (get_table net404 "T" (some "c") "fra" frenchFS).1 =
      (parse_csv (delimiter "fra") "COL1;COL2\n1;2\n").mapError
        (fun msg => "Error fetching table " ++ "T" ++ ": " ++ msg) := by
  have h := getTable_delimiter_choice "fra" "T" net404 (some "c") frenchFS
    ((download_table net404 "T" (some "c") "fra" frenchFS).2.1)
    (csvPath (some "c") "T" "fra") 0 "COL1;COL2\n1;2\n" rfl rfl
  exact ⟨h.1, h.2.2.1⟩

/-- C1: if the canonical cache file for (identifier, language) exists,
`download_table` returns that canonical path with zero network requests
(only the cache-dir `mkdir` side effect runs); consequently when a first
call succeeds, a second call with identical arguments issues no request,
the two calls together perform at most one request, and the second call
returns the same path as the first. -/
theorem downloadTable_cache_idempotent (net : String → HttpResponse) (table_id : String)
    (cd : Option String) (language : String) (fs fs1 : FS) (p : Path) (n : Nat) :
    (fs.existsFile (csvPath cd table_id language) = true →
      download_table net table_id cd language fs =
        (.ok (csvPath cd table_id language), (get_cache_dir cd fs).2, 0))
  ∧ (download_table net table_id cd language fs = (.ok p, fs1, n) →
      (download_table net table_id cd language fs1).1 = .ok p
      ∧ n + (download_table net table_id cd language fs1).2.2 ≤ 1) := by
  refine ⟨download_table_hit net table_id cd language fs, fun h => ?_⟩
  obtain ⟨hp, hsome, hn⟩ := download_table_ok net table_id cd language fs p fs1 n h
  have hhit : fs1.existsFile (csvPath cd table_id language) = true := hsome
  rw [download_table_hit net table_id cd language fs1 hhit]
  subst hp
  refine ⟨rfl, ?_⟩
  have h1 : n ≤ 1 := hn
  simpa using h1

/-- C1 witness: after a first successful download on the empty filesystem,
the second identical call returns the same path and the two calls together
perform exactly one network request. -/
theorem downloadTable_cache_idempotent_witness :
    (download_table net200 "14-10-0287" (some "cache") "eng"
        ((download_table net200 "14-10-0287" (some "cache") "eng" emptyFS).2.1)).1 =
      .ok (csvPath (some "cache") "14-10-0287" "eng")
  ∧ 1 + (download_table net200 "14-10-0287" (some "cache") "eng"
        ((download_table net200 "14-10-0287" (some "cache") "eng" emptyFS).2.1)).2.2 ≤ 1 :=
  (downloadTable_cache_idempotent net200 "14-10-0287" (some "cache") "eng" emptyFS
    ((download_table net200 "14-10-0287" (some "cache") "eng" emptyFS).2.1)
    (csvPath (some "cache") "14-10-0287" "eng") 1).2 rfl

theorem wrapped_message_contains (table_id msg : String) :
    containsSubstr ("Error fetching table " ++ table_id ++ ": " ++ msg) "Error fetching table"
  ∧ containsSubstr ("Error fetching table " ++ table_id ++ ": " ++ msg) table_id
  ∧ containsSubstr ("Error fetching table " ++ table_id ++ ": " ++ msg) msg := by
  have hsp : ("Error fetching table " : String).data =
      ("Error fetching table" : String).data ++ (" " : String).data := by decide
  refine ⟨⟨[], (" " ++ table_id ++ ": " ++ msg).data, ?_⟩,
    ⟨("Error fetching table " : String).data, (": " ++ msg).data, ?_⟩,
    ⟨("Error fetching table " ++ table_id ++ ": ").data, [], ?_⟩⟩
  · simp [data_append, hsp, List.append_assoc]
  · simp [data_append, List.append_assoc]
  · simp [data_append, List.append_assoc]

/-- C3: whenever the underlying fetch fails (for instance with a 404
status) or the parse fails, `get_table` returns a single wrapped failure
whose message is exactly `"Error fetching table <id>: <original message>"`,
hence contains the literal substring "Error fetching table", the table
identifier, and the original failure's description; the result type
carries only this string, so the original failure kind is not otherwise
preserved or programmatically distinguishable. -/
theorem getTable_wraps_errors (net : String → HttpResponse) (table_id : String)
    (cd : Option String) (language : String) (fs : FS) (msg : String)
    (h : (∃ e fs1 n, download_table net table_id cd language fs = (.error e, fs1, n)
            ∧ msg = DlError.message e)
       ∨ (∃ p fs1 n, download_table net table_id cd language fs = (.ok p, fs1, n)
            ∧ pl_read_csv fs1 p (delimiter language) = .error msg)) :
    (get_table net table_id cd language fs).1 =
      .error ("Error fetching table " ++ table_id ++ ": " ++ msg)
  ∧ containsSubstr ("Error fetching table " ++ table_id ++ ": " ++ msg) "Error fetching table"
  ∧ containsSubstr ("Error fetching table " ++ table_id ++ ": " ++ msg) table_id
  ∧ containsSubstr ("Error fetching table " ++ table_id ++ ": " ++ msg) msg := by
  refine ⟨?_, (wrapped_message_contains table_id msg).1,
    (wrapped_message_contains table_id msg).2.1, (wrapped_message_contains table_id msg).2.2⟩
  rcases h with ⟨e, fs1, n, hd, hm⟩ | ⟨p, fs1, n, hd, hp⟩
  · unfold get_table
    rw [hd]
    dsimp only
    rw [hm]
  · unfold get_table
    rw [hd]
    dsimp only
    rw [hp]

/-- C3 witness: a 404 response produces the wrapped message naming the
table and the HTTP failure description. -/
theorem getTable_wraps_errors_witness :
    (get_table net404 "invalid-table" (some "cache") "eng" emptyFS).1 =
      .error ("Error fetching table " ++ "invalid-table" ++ ": " ++
        DlError.message (.httpError 404 (get_table_url "invalid-table" "eng")))
  ∧ containsSubstr
      ("Error fetching table " ++ "invalid-table" ++ ": " ++
        DlError.message (.httpError 404 (get_table_url "invalid-table" "eng")))
      "Error fetching table" := by
  have h := getTable_wraps_errors net404 "invalid-table" (some "cache") "eng" emptyFS
    (DlError.message (.httpError 404 (get_table_url "invalid-table" "eng")))
    (Or.inl ⟨.httpError 404 (get_table_url "invalid-table" "eng"),
      (download_table net404 "invalid-table" (some "cache") "eng" emptyFS).2.1, 1, rfl, rfl⟩)
  exact ⟨h.1, h.2.1⟩

/-- C7 counterexample: with an archive containing `a.csv` and `b.txt`, the
fetch succeeds yet the entry directory still holds the extracted `b.txt`
next to the canonical file, so the entry directory does not contain exactly
one file as the claim states. -/
theorem entryDir_not_single_file :
    (download_table netTwo "T" (some "c") "eng" emptyFS).1 = .ok (csvPath (some "c") "T" "eng")
  ∧ ((download_table netTwo "T" (some "c") "eng" emptyFS).2.1).files
      (tableDir (some "c") "T" "eng" ++ ["b.txt"]) = some (.text "y")
  ∧ tableDir (some "c") "T" "eng" ++ ["b.txt"] ≠ csvPath (some "c") "T" "eng" :=
  ⟨rfl, rfl, by decide⟩

/-- C7 (amended): after every successful fetch from a cache miss the entry
directory exists, holds the canonical text file `<id>-<language>.csv`, and
the transient archive file is deleted; all other archive members remain
extracted in the entry directory, so it need not contain exactly one file. -/
theorem entryDir_after_success (net : String → HttpResponse) (table_id : String)
    (cd : Option String) (language : String) (fs fs1 : FS) (p : Path) (n : Nat)
    (hmiss : fs.existsFile (csvPath cd table_id language) = false)
    (h : download_table net table_id cd language fs = (.ok p, fs1, n)) :
    p = csvPath cd table_id language
  ∧ (fs1.files (csvPath cd table_id language)).isSome = true
  ∧ fs1.files (zipPath cd table_id language) = none
  ∧ fs1.dirs (tableDir cd table_id language) = true := by
  obtain ⟨nm, hfind, hst, hp, hn, hfs⟩ :=
    download_table_ok_miss net table_id cd language fs p fs1 n hmiss h
  subst hp
  subst hfs
  exact ⟨rfl,
    missFinalFS_csv_isSome cd table_id language fs _ nm hfind,
    missFinalFS_zip_none cd table_id language fs _ nm,
    missFinalFS_dirs_tableDir cd table_id language fs _ nm⟩

/-- C7 witness: the two-member archive run satisfies the amended claim. -/
theorem entryDir_after_success_witness :
    ((download_table netTwo "T" (some "c") "eng" emptyFS).2.1).files
      (zipPath (some "c") "T" "eng") = none
  ∧ ((download_table netTwo "T" (some "c") "eng" emptyFS).2.1).dirs
      (tableDir (some "c") "T" "eng") = true := by
  have h := entryDir_after_success netTwo "T" (some "c") "eng" emptyFS
    ((download_table netTwo "T" (some "c") "eng" emptyFS).2.1)
    (csvPath (some "c") "T" "eng") 1 rfl rfl
  exact ⟨h.2.2.1, h.2.2.2⟩

/-- C9: the cache paths use the raw identifier while the URL uses the
stripped identifier: two spellings equal after stripping give the same URL
but distinct entry directories and canonical paths, and a canonical file
cached under one spelling does not prevent the network request when
fetching under the other spelling. -/
theorem cachePath_rawId_vs_url (id1 id2 language : String) (cd : Option String)
    (net : String → HttpResponse) (fs : FS)
    (hclean : cleanId id1 = cleanId id2)
    (hne : id1 ≠ id2)
    (hcache1 : fs.existsFile (csvPath cd id1 language) = true)
    (hcache2 : fs.existsFile (csvPath cd id2 language) = false) :
    get_table_url id1 language = get_table_url id2 language
  ∧ csvPath cd id1 language ≠ csvPath cd id2 language
  ∧ tableDir cd id1 language ≠ tableDir cd id2 language
  ∧ (download_table net id2 cd language fs).2.2 = 1 := by
  refine ⟨?_, fun h => hne (csvPath_inj cd id1 id2 language h),
    fun h => hne (tableDir_inj cd id1 id2 language h),
    download_table_miss_netcalls net id2 cd language fs hcache2⟩
  unfold get_table_url
  rw [hclean]

/-- C9 witness: "14-10-0287" cached, "14100287" requested. -/
theorem cachePath_rawId_vs_url_witness :
    get_table_url "14-10-0287" "eng" = get_table_url "14100287" "eng"
  ∧ (download_table net200 "14100287" (some "c") "eng" cachedFS14).2.2 = 1 := by
  have h := cachePath_rawId_vs_url "14-10-0287" "14100287" "eng" (some "c") net200 cachedFS14
    (by decide) (by decide) rfl rfl
  exact ⟨h.1, h.2.2.2⟩

/-- C10: when the downloaded archive has no CSV member, `download_table`
raises after the archive has been written and fully extracted but before
the deletion step: on this error path the zip file, the created entry
directory, and every extracted member remain on disk. -/
theorem noCsv_leaves_artifacts (net : String → HttpResponse) (table_id : String)
    (cd : Option String) (language : String) (fs : FS) (st : Nat) (body : List ZipMember)
    (hmiss : fs.existsFile (csvPath cd table_id language) = false)
    (hnet : net (get_table_url table_id language) = ⟨st, body⟩)
    (hst : st < 400)
    (hnone : find_csv_filename body = none) :
    (download_table net table_id cd language fs).1 = .error (.noCsv table_id)
  ∧ ((download_table net table_id cd language fs).2.1).files (zipPath cd table_id language) =
      some (.zip body)
  ∧ (∀ m ∈ body, (((download_table net table_id cd language fs).2.1).files
      (tableDir cd table_id language ++ [m.name])).isSome = true)
  ∧ ((download_table net table_id cd language fs).2.1).dirs
      (tableDir cd table_id language) = true := by
  rw [download_table_noCsv net table_id cd language fs st body hmiss hnet hst hnone]
  refine ⟨rfl, ?_, ?_, ?_⟩
  · rw [extractAll_files_notin _ _ _ _ fun m _ => extracted_ne_zipPath cd table_id language m.name]
    exact FS.write_files_self _ _ _
  · intro m hm
    exact extractAll_isSome_mem _ _ _ _ hm
  · rw [extractAll_dirs, FS.write_dirs]
    unfold FS.mkdirp
    simp [isPrefixOf_self]

/-- C10 witness: the csv-less archive leaves the zip, the extracted member
and the entry directory behind. -/
theorem noCsv_leaves_artifacts_witness :
    ((download_table netNoCsv "T" (some "c") "eng" emptyFS).2.1).files
      (zipPath (some "c") "T" "eng") = some (.zip [⟨"readme.txt", "hello"⟩])
  ∧ ((download_table netNoCsv "T" (some "c") "eng" emptyFS).2.1).dirs
      (tableDir (some "c") "T" "eng") = true := by
  have h := noCsv_leaves_artifacts netNoCsv "T" (some "c") "eng" emptyFS
    200 [⟨"readme.txt", "hello"⟩] rfl rfl (by omega) rfl
  exact ⟨h.2.1, h.2.2.2⟩

end StatscanWrapper
